import Mathlib

/-!
Shallow embedding of the PorePy AD / DOF-management core:
`src/porepy/numerics/mixed_dim/dof_manager.py` (class `DofManager`) and
`src/porepy/numerics/ad/equation_manager.py` (classes `Equation`,
`EquationManager`).  Machine floats are modelled by rationals; numpy index
arrays by `List Nat`; dense/sparse scipy matrices by row lists `List (List ℚ)`;
Python exceptions by `Except`.
-/

namespace PorePy

/-- A grid (a node of the GridBucket).  `gid` models Python object identity;
`numCells`, `numFaces`, `numNodes` are its entity counts. -/
structure Grid where
  gid : Nat
  numCells : Nat
  numFaces : Nat
  numNodes : Nat
deriving DecidableEq, Repr

/-- An edge of the GridBucket (a pair of grids, identified here by an id). -/
structure Edge where
  eid : Nat
deriving DecidableEq, Repr

/-- A key of `block_dof`: either a grid (node) or an edge of the GridBucket. -/
inductive GridLike where
  | node (g : Grid)
  | edge (e : Edge)
deriving DecidableEq, Repr

/-- The per-variable dof-count dictionary `{cells: .., faces: .., nodes: ..}`;
a missing key is `none` (Python `dict.get(key, 0)` then defaults to 0). -/
structure DofInfo where
  cells : Option Nat := none
  faces : Option Nat := none
  nodes : Option Nat := none
deriving DecidableEq, Repr

/-- A node of the GridBucket together with its data dictionary:
`vars = none` models `pp.PRIMARY_VARIABLES not in d`. -/
structure GBNode where
  grid : Grid
  vars : Option (List (String × DofInfo))
deriving DecidableEq, Repr

/-- An edge of the GridBucket with its data dictionary; `mortarCells` is
`d["mortar_grid"].num_cells`. -/
structure GBEdge where
  edge : Edge
  mortarCells : Nat
  vars : Option (List (String × DofInfo))
deriving DecidableEq, Repr

/-- The GridBucket: iteration order over nodes and over edges is the list
order. -/
structure GridBucket where
  nodes : List GBNode
  edges : List GBEdge
deriving DecidableEq, Repr

/-- Number of dofs of one variable on a grid node:
`g.num_cells * local_dofs.get("cells", 0) + g.num_faces * ... + g.num_nodes * ...`. -/
def gridDofSize (g : Grid) (info : DofInfo) : Nat :=
  g.numCells * info.cells.getD 0 + g.numFaces * info.faces.getD 0
    + g.numNodes * info.nodes.getD 0

/-- Number of dofs of one variable on an edge:
`mg.num_cells * local_dofs.get("cells", 0)` (only cell dofs on mortar grids). -/
def edgeDofSize (mortarCells : Nat) (info : DofInfo) : Nat :=
  mortarCells * info.cells.getD 0

/-- The `DofManager`: `blockDof` is the insertion-ordered dictionary
`(grid-or-edge, variable name) -> block index`; `fullDof` the per-block sizes. -/
structure DofManager where
  blockDof : List ((GridLike × String) × Nat)
  fullDof : List Nat
deriving DecidableEq, Repr

/-- Python `dict` lookup on an insertion-ordered association list (keys are
unique in a `dict`, so first match suffices). -/
def alookup {α β : Type} [DecidableEq α] : List (α × β) → α → Option β
  | [], _ => none
  | (k, v) :: rest, a => if k = a then some v else alookup rest a

/-- The inner loop of `DofManager.__init__` over one data dictionary's
`PRIMARY_VARIABLES`: each variable gets the next block index
(`block_dof_counter`, which always equals `len(block_dof)`) and appends its
dof count to `full_dof`. -/
def addVarBlocks (key : GridLike) (size : DofInfo → Nat) :
    List (String × DofInfo) → DofManager → DofManager
  | [], dm => dm
  | (name, info) :: rest, dm =>
    addVarBlocks key size rest
      { blockDof := dm.blockDof ++ [((key, name), dm.blockDof.length)],
        fullDof := dm.fullDof ++ [size info] }

/-- One step of the `DofManager.__init__` loops: a node or edge without
`pp.PRIMARY_VARIABLES` is skipped (`continue`). -/
def addBlocks (key : GridLike) (size : DofInfo → Nat) :
    Option (List (String × DofInfo)) → DofManager → DofManager
  | none, dm => dm
  | some vars, dm => addVarBlocks key size vars dm

/-- `DofManager.__init__(gb)`: iterate nodes, then edges, assigning block
indices `0, 1, 2, ...` in declaration order and recording block sizes. -/
def DofManager.build (gb : GridBucket) : DofManager :=
  let afterNodes := gb.nodes.foldl
    (fun dm n => addBlocks (.node n.grid) (gridDofSize n.grid) n.vars dm)
    { blockDof := [], fullDof := [] }
  gb.edges.foldl
    (fun dm e => addBlocks (.edge e.edge) (edgeDofSize e.mortarCells) e.vars dm)
    afterNodes

/-- `np.hstack((0, np.cumsum(full_dof)))[b]`: the global offset of block `b`,
i.e. the sum of the sizes of the blocks before it. -/
def DofManager.dofStart (dm : DofManager) (b : Nat) : Nat :=
  (dm.fullDof.take b).sum

/-- `DofManager.dof_ind(g, name)`: look up the block index (a `KeyError`
carrying the key if `(g, name)` was never declared), then return
`np.arange(dof_start[b], dof_start[b+1])`. -/
def DofManager.dofInd (dm : DofManager) (g : GridLike) (name : String) :
    Except (GridLike × String) (List Nat) :=
  match alookup dm.blockDof (g, name) with
  | none => .error (g, name)
  | some b => .ok (List.range' (dm.dofStart b) (dm.dofStart (b + 1) - dm.dofStart b))

/-- The declared `(entity, name)` pairs of a GridBucket, in declaration
order: all nodes first, then all edges (an absent `PRIMARY_VARIABLES`
dictionary contributes nothing). -/
def declKeys (gb : GridBucket) : List (GridLike × String) :=
  (gb.nodes.map (fun n =>
      (n.vars.getD []).map (fun v => (GridLike.node n.grid, v.1)))).flatten
    ++ (gb.edges.map (fun e =>
      (e.vars.getD []).map (fun v => (GridLike.edge e.edge, v.1)))).flatten

/-- The dof counts of the declared pairs, in the same declaration order. -/
def declSizes (gb : GridBucket) : List Nat :=
  (gb.nodes.map (fun n =>
      (n.vars.getD []).map (fun v => gridDofSize n.grid v.2))).flatten
    ++ (gb.edges.map (fun e =>
      (e.vars.getD []).map (fun v => edgeDofSize e.mortarCells v.2))).flatten

/-! ## Matrices and AD values

Dense row-list model of numpy arrays / scipy sparse matrices. -/

/-- A matrix as a list of rows. -/
abbrev Mat := List (List ℚ)

/-- Number of columns, read off the first row (matrices are built well-formed). -/
def numColsM (m : Mat) : Nat := (m.head?.map List.length).getD 0

/-- Dot product of two rows. -/
def dotQ (u v : List ℚ) : ℚ := (List.zipWith (· * ·) u v).sum

/-- Matrix-matrix product `a * b` (scipy `spmatrix.__mul__`). -/
def matMul (a b : Mat) : Mat := a.map (fun r => b.transpose.map (fun c => dotQ r c))

/-- Matrix-vector product (scipy matrix times 1-d array gives a 1-d array). -/
def matVec (m : Mat) (v : List ℚ) : List ℚ := m.map (fun r => dotQ r v)

/-- Entrywise matrix sum. -/
def matAdd (a b : Mat) : Mat := List.zipWith (List.zipWith (· + ·)) a b

/-- Entrywise matrix difference. -/
def matSub (a b : Mat) : Mat := List.zipWith (List.zipWith (· - ·)) a b

/-- Scalar multiple of a matrix. -/
def scaleMat (x : ℚ) (m : Mat) : Mat := m.map (fun r => r.map (x * ·))

/-- `diag(v) * m`: scale row `i` of `m` by `v[i]`. -/
def diagMul (v : List ℚ) (m : Mat) : Mat :=
  List.zipWith (fun x r => r.map (x * ·)) v m

/-- `sps.block_diag(ms)` for a nonempty block list: each block is padded with
zero columns for the blocks before (`pre`) and after it. -/
def blockDiagGo (pre : Nat) : List Mat → Mat
  | [] => []
  | m :: rest =>
    let post := (rest.map numColsM).sum
    m.map (fun r => List.replicate pre 0 ++ r ++ List.replicate post 0)
      ++ blockDiagGo (pre + numColsM m) rest

/-- `sps.block_diag`. -/
def blockDiag (ms : List Mat) : Mat := blockDiagGo 0 ms

/-- A value produced by `Equation._parse_operator`: Python is dynamically
typed, so the result is a scalar, a numpy array, a (sparse) matrix, a
forward-mode `Ad_array` (value and Jacobian), or an `pp.ad.Function` object
(identified by an id, interpreted by the environment). -/
inductive PVal where
  | scalar (x : ℚ)
  | arr (v : List ℚ)
  | mat (m : Mat)
  | adv (val : List ℚ) (jac : Mat)
  | func (fid : Nat)
deriving DecidableEq, Repr

/-- Decidable equality of `Except` results (needed to evaluate concrete
runs). -/
instance {ε α : Type} [DecidableEq ε] [DecidableEq α] : DecidableEq (Except ε α) :=
  fun x y =>
    match x, y with
    | .error a, .error b =>
      if h : a = b then .isTrue (by rw [h]) else
        .isFalse (fun hc => by cases hc; exact h rfl)
    | .error _, .ok _ => .isFalse (fun hc => by cases hc)
    | .ok _, .error _ => .isFalse (fun hc => by cases hc)
    | .ok a, .ok b =>
      if h : a = b then .isTrue (by rw [h]) else
        .isFalse (fun hc => by cases hc; exact h rfl)

/-- Effectful `map` over a list with `Except`, left to right (a Python list
comprehension over calls that may raise). -/
def mapExcept {ε α β : Type} (f : α → Except ε β) : List α → Except ε (List β)
  | [] => .ok []
  | x :: xs => do
    let y ← f x
    let ys ← mapExcept f xs
    .ok (y :: ys)

/-- A Python exception raised during parsing / assembly. -/
inductive PErr where
  | assertionError
  | indexError
  | attributeError
  | typeError
  | valueError (msg : String)
  | keyErrorDof (k : GridLike × String)
  | keyErrorAd (vid : Nat)
  | keyErrorMat (dictKey matKey : String)
deriving DecidableEq, Repr

/-- Modelled from the spec: `forward_mode.py` (class `Ad_array`) is not under
`src/`; addition follows spec §4.2 — elementwise value add, Jacobian add,
with numpy raising on a length mismatch. -/
def pvAdd : PVal → PVal → Except PErr PVal
  | .scalar a, .scalar b => .ok (.scalar (a + b))
  | .scalar a, .arr v => .ok (.arr (v.map (a + ·)))
  | .arr v, .scalar a => .ok (.arr (v.map (· + a)))
  | .arr u, .arr v =>
    if u.length = v.length then .ok (.arr (List.zipWith (· + ·) u v))
    else .error (.valueError "operands could not be broadcast")
  | .mat a, .mat b => .ok (.mat (matAdd a b))
  | .adv v j, .adv w k =>
    if v.length = w.length then .ok (.adv (List.zipWith (· + ·) v w) (matAdd j k))
    else .error (.valueError "operands could not be broadcast")
  | .adv v j, .arr w =>
    if v.length = w.length then .ok (.adv (List.zipWith (· + ·) v w) j)
    else .error (.valueError "operands could not be broadcast")
  | .arr w, .adv v j =>
    if w.length = v.length then .ok (.adv (List.zipWith (· + ·) w v) j)
    else .error (.valueError "operands could not be broadcast")
  | .adv v j, .scalar a => .ok (.adv (v.map (· + a)) j)
  | .scalar a, .adv v j => .ok (.adv (v.map (a + ·)) j)
  | _, _ => .error .typeError

/-- Modelled from the spec: subtraction, as `pvAdd` with elementwise and
Jacobian difference (spec §4.2). -/
def pvSub : PVal → PVal → Except PErr PVal
  | .scalar a, .scalar b => .ok (.scalar (a - b))
  | .scalar a, .arr v => .ok (.arr (v.map (a - ·)))
  | .arr v, .scalar a => .ok (.arr (v.map (· - a)))
  | .arr u, .arr v =>
    if u.length = v.length then .ok (.arr (List.zipWith (· - ·) u v))
    else .error (.valueError "operands could not be broadcast")
  | .mat a, .mat b => .ok (.mat (matSub a b))
  | .adv v j, .adv w k =>
    if v.length = w.length then .ok (.adv (List.zipWith (· - ·) v w) (matSub j k))
    else .error (.valueError "operands could not be broadcast")
  | .adv v j, .arr w =>
    if v.length = w.length then .ok (.adv (List.zipWith (· - ·) v w) j)
    else .error (.valueError "operands could not be broadcast")
  | .arr w, .adv v j =>
    if w.length = v.length then .ok (.adv (List.zipWith (· - ·) w v) (scaleMat (-1) j))
    else .error (.valueError "operands could not be broadcast")
  | .adv v j, .scalar a => .ok (.adv (v.map (· - a)) j)
  | .scalar a, .adv v j => .ok (.adv (v.map (a - ·)) (scaleMat (-1) j))
  | _, _ => .error .typeError

/-- Modelled from the spec: multiplication (spec §4.2) — elementwise value
product; a constant matrix left-multiplies value and Jacobian; two dual
values combine by the product rule `diag(l)·r.jac + diag(r)·l.jac`. -/
def pvMul : PVal → PVal → Except PErr PVal
  | .scalar a, .scalar b => .ok (.scalar (a * b))
  | .scalar a, .arr v => .ok (.arr (v.map (a * ·)))
  | .arr v, .scalar a => .ok (.arr (v.map (· * a)))
  | .arr u, .arr v =>
    if u.length = v.length then .ok (.arr (List.zipWith (· * ·) u v))
    else .error (.valueError "operands could not be broadcast")
  | .scalar a, .mat m => .ok (.mat (scaleMat a m))
  | .mat m, .scalar a => .ok (.mat (scaleMat a m))
  | .mat m, .arr v => .ok (.arr (matVec m v))
  | .mat m, .mat n => .ok (.mat (matMul m n))
  | .mat m, .adv v j => .ok (.adv (matVec m v) (matMul m j))
  | .adv v j, .adv w k =>
    if v.length = w.length then
      .ok (.adv (List.zipWith (· * ·) v w) (matAdd (diagMul v k) (diagMul w j)))
    else .error (.valueError "operands could not be broadcast")
  | .scalar a, .adv v j => .ok (.adv (v.map (a * ·)) (scaleMat a j))
  | .adv v j, .scalar a => .ok (.adv (v.map (· * a)) (scaleMat a j))
  | .arr u, .adv w k =>
    if u.length = w.length then .ok (.adv (List.zipWith (· * ·) u w) (diagMul u k))
    else .error (.valueError "operands could not be broadcast")
  | .adv v j, .arr u =>
    if v.length = u.length then .ok (.adv (List.zipWith (· * ·) v u) (diagMul u j))
    else .error (.valueError "operands could not be broadcast")
  | _, _ => .error .typeError

/-- Modelled from the spec: division by the quotient rule (spec §4.2);
rational division stands in for float division. -/
def pvDiv : PVal → PVal → Except PErr PVal
  | .scalar a, .scalar b => .ok (.scalar (a / b))
  | .arr v, .scalar a => .ok (.arr (v.map (· / a)))
  | .arr u, .arr v =>
    if u.length = v.length then .ok (.arr (List.zipWith (· / ·) u v))
    else .error (.valueError "operands could not be broadcast")
  | .adv v j, .scalar a => .ok (.adv (v.map (· / a)) (scaleMat (1 / a) j))
  | .adv v j, .arr w =>
    if v.length = w.length then
      .ok (.adv (List.zipWith (· / ·) v w) (diagMul (w.map (1 / ·)) j))
    else .error (.valueError "operands could not be broadcast")
  | .adv v j, .adv w k =>
    if v.length = w.length then
      .ok (.adv (List.zipWith (· / ·) v w)
        (matSub (diagMul (w.map (1 / ·)) j)
          (diagMul (List.zipWith (fun a b => a / (b * b)) v w) k)))
    else .error (.valueError "operands could not be broadcast")
  | _, _ => .error .typeError

/-! ## Operator trees (`operators.py` leaves plus composite nodes) -/

/-- Modelled from the spec: class `Variable` of `operators.py` is not under
`src/`; a variable is `(name, id, entity)` with immutable identity, its dof
counts living in the `DofManager`. -/
structure Var where
  id : Nat
  g : GridLike
  name : String
deriving DecidableEq, Repr

/-- The operation tag of a composite node (`operators.Operation`);
`void` stands for any tag other than the five recognized ones. -/
inductive Operation where
  | add
  | sub
  | mul
  | div
  | evaluate
  | void
deriving DecidableEq, Repr

mutual

/-- An operator-tree node.  Leaf kinds mirror the `isinstance` dispatch of
`Equation._parse_operator`; `tree o children` is a composite node (its
`_tree._op` and `_tree._children`).  A `MergedVariable` carries a nonempty
ordered list of sub-variables (`first :: rest`); a `mergedOperator` carries
its identity `oid` (Python object identity, the cache key) and, per grid,
the resolved `(entity, mat_dict_key, mat_key)` lookup triple. -/
inductive Op where
  | var (v : Var)
  | mergedVar (first : Var) (rest : List Var)
  | boundaryCondition (keyword : String) (grids : List Grid)
  | matrix (m : Mat)
  | array (vals : List ℚ)
  | function (fid : Nat)
  | scalar (x : ℚ)
  | divergence (isScalar : Bool) (grids : List Grid)
  | mergedOperator (oid : Nat) (items : List (GridLike × String × String))
  | tree (o : Operation) (children : OpList)
deriving DecidableEq

/-- The ordered child list `_tree._children` of a composite node. -/
inductive OpList where
  | nil
  | cons (hd : Op) (tl : OpList)
deriving DecidableEq

end

/-- Build an `OpList` from a `List Op` (notation helper for examples). -/
def OpList.ofList : List Op → OpList
  | [] => .nil
  | o :: rest => .cons o (OpList.ofList rest)

/-- The length of an `OpList`. -/
def OpList.length : OpList → Nat
  | .nil => 0
  | .cons _ tl => 1 + tl.length

/-- A Variable or MergedVariable leaf as returned by
`Equation._find_subtree_variables`. -/
inductive VarLeaf where
  | single (v : Var)
  | merged (first : Var) (rest : List Var)
deriving DecidableEq, Repr

/-- The id of a leaf.  Modelled from the spec for the merged case:
`MergedVariable.id` is the id of its first constituent sub-variable. -/
def VarLeaf.vid : VarLeaf → Nat
  | .single v => v.id
  | .merged f _ => f.id

mutual

/-- `Equation._find_subtree_variables`: collect every Variable/MergedVariable
leaf of the tree, in depth-first child order (the nested-list flattening of
the Python code keeps exactly the Variable leaves, in order). -/
def findSubtreeVariables : Op → List VarLeaf
  | .var v => [.single v]
  | .mergedVar f r => [.merged f r]
  | .tree _ children => findSubtreeVariablesList children
  | _ => []

/-- Collect the variables of each child, left to right. -/
def findSubtreeVariablesList : OpList → List VarLeaf
  | .nil => []
  | .cons hd tl => findSubtreeVariables hd ++ findSubtreeVariablesList tl

end

/-- Modelled from the spec: the `set()` pass of `Equation._identify_variables`
deduplicates the collected leaves by variable id (spec §4.2), keeping the
first occurrence of each id. -/
def dedupById : List VarLeaf → List VarLeaf
  | [] => []
  | v :: rest => v :: (dedupById rest).filter (fun w => w.vid ≠ v.vid)

/-- The `sorted(..., key=lambda var: var.id)` pass: ascending variable id. -/
def sortById (l : List VarLeaf) : List VarLeaf :=
  List.insertionSort (fun a b => a.vid ≤ b.vid) l

/-- The dof-index array of one leaf: a plain variable looks up
`dof_ind(g, name)`; a merged variable concatenates the lookups of its
sub-variables (`np.hstack`). -/
def varLeafDofs (dm : DofManager) : VarLeaf → Except PErr (List Nat)
  | .single v =>
    match dm.dofInd v.g v.name with
    | .error k => .error (.keyErrorDof k)
    | .ok i => .ok i
  | .merged f rest => do
    let arrs ← mapExcept (fun sv =>
      match dm.dofInd sv.g sv.name with
      | .error k => .error (.keyErrorDof k)
      | .ok i => .ok i) (f :: rest)
    .ok arrs.flatten

/-- `Equation._identify_variables`: collect, deduplicate and sort the
variables, then build the per-variable global index arrays and the variable
ids (a merged variable contributes the id of its first sub-variable). -/
def identifyVariables (dm : DofManager) (op : Op) :
    Except PErr (List (List Nat) × List Nat) := do
  let vars := sortById (dedupById (findSubtreeVariables op))
  let inds ← mapExcept (varLeafDofs dm) vars
  .ok (inds, vars.map VarLeaf.vid)

/-- An `Equation` object: the operator tree, optional name, the per-variable
global dof arrays and ids fixed at construction, the lazily filled
discretization-matrix cache `_stored_matrices`, and the seeding dictionary
`_ad` rebuilt by every `to_ad` call. -/
structure Equation where
  operator : Op
  name : Option String
  variableDofs : List (List Nat)
  variableIds : List Nat
  storedMatrices : List (Nat × Mat)
  ad : List (Nat × (List ℚ × Mat))
deriving DecidableEq

/-- `Equation.__init__(operator, dof_manager, name)`. -/
def Equation.make (op : Op) (dm : DofManager) (name : Option String) :
    Except PErr Equation := do
  let (dofs, ids) ← identifyVariables dm op
  .ok { operator := op, name := name, variableDofs := dofs, variableIds := ids,
        storedMatrices := [], ad := [] }

/-- `np.hstack` over a list of integer index arrays: raises on an empty list. -/
def hstackN : List (List Nat) → Option (List Nat)
  | [] => none
  | ls => some ls.flatten

/-- `Equation.local_dofs()`: `np.hstack([d for d in self._variable_dofs])`. -/
def Equation.localDofs (eq : Equation) : Option (List Nat) :=
  hstackN eq.variableDofs

/-! ## The forward-mode evaluator `Equation._parse_operator` -/

/-- The external stores the parser reads (the GridBucket data dictionaries
and external libraries): boundary values per grid and keyword,
discretization matrices per entity and `(mat_dict_key, mat_key)` (missing
key modelled as `none`), divergence-matrix builders (`pp.fvutils`), and the
callables wrapped by `pp.ad.Function` objects. -/
structure Env where
  bcValues : Grid → String → List ℚ
  discrMat : GridLike → String → String → Option Mat
  scalarDiv : Grid → Mat
  vectorDiv : Grid → Mat
  fn : Nat → List PVal → PVal

/-- The `_stored_matrices` cache: Python dict keyed by the `MergedOperator`
object, i.e. by its identity `oid`. -/
abbrev Cache := List (Nat × Mat)

/-- Look up the discretization matrices of a `MergedOperator`, in grid order:
`data[pp.DISCRETIZATION_MATRICES][mat_dict_key][getattr(discr, key + "_matrix_key")]`,
a `KeyError` when absent. -/
def computeMergedMats (env : Env) :
    List (GridLike × String × String) → Except PErr (List Mat)
  | [] => .ok []
  | (e, k1, k2) :: rest =>
    match env.discrMat e k1 k2 with
    | none => .error (.keyErrorMat k1 k2)
    | some m => do
      let ms ← computeMergedMats env rest
      .ok (m :: ms)

/-- The composite-node dispatch at the end of `_parse_operator`, applied to
the already-parsed children.  `add`/`sub` assert exactly two results; `mul`
and `div` index `results[0]` and `results[1]` (an `IndexError` when fewer,
extra results silently ignored); `evaluate` calls `results[0].func` on the
remaining results (an `AttributeError` when `results[0]` is not a Function);
any unrecognized tag raises `ValueError("Should not happen")`. -/
def applyOperation (env : Env) : Operation → List PVal → Except PErr PVal
  | .add, [a, b] => pvAdd a b
  | .add, _ => .error .assertionError
  | .sub, [a, b] => pvSub a b
  | .sub, _ => .error .assertionError
  | .mul, a :: b :: _ => pvMul a b
  | .mul, _ => .error .indexError
  | .div, a :: b :: _ => pvDiv a b
  | .div, _ => .error .indexError
  | .evaluate, .func fid :: rest => .ok (env.fn fid rest)
  | .evaluate, _ :: _ => .error .attributeError
  | .evaluate, [] => .error .indexError
  | .void, _ => .error (.valueError "Should not happen")

mutual

/-- `Equation._parse_operator(op, gb)`: resolve a leaf, or parse all children
(left to right, threading the `_stored_matrices` cache) and combine them.
A Variable/MergedVariable resolves through the `_ad` dictionary (a merged
variable through the id of its first sub-variable); a childless node that is
no recognized leaf hits `assert False`. -/
def parseOperator (env : Env) (ad : List (Nat × (List ℚ × Mat))) :
    Op → Cache → Except PErr (PVal × Cache)
  | .var v, c =>
    match alookup ad v.id with
    | none => .error (.keyErrorAd v.id)
    | some (val, jac) => .ok (.adv val jac, c)
  | .mergedVar f _, c =>
    match alookup ad f.id with
    | none => .error (.keyErrorAd f.id)
    | some (val, jac) => .ok (.adv val jac, c)
  | .boundaryCondition kw grids, c =>
    match grids with
    | [] => .error (.valueError "need at least one array to concatenate")
    | _ => .ok (.arr (grids.map (fun g => env.bcValues g kw)).flatten, c)
  | .matrix m, c => .ok (.mat m, c)
  | .array v, c => .ok (.arr v, c)
  | .function fid, c => .ok (.func fid, c)
  | .scalar x, c => .ok (.scalar x, c)
  | .divergence isScalar grids, c =>
    match grids with
    | [] => .error (.valueError "blocks must be 2-D")
    | _ => .ok (.mat (blockDiag (grids.map
        (fun g => if isScalar then env.scalarDiv g else env.vectorDiv g))), c)
  | .mergedOperator oid items, c =>
    match alookup c oid with
    | some m => .ok (.mat m, c)
    | none =>
      match items with
      | [] => .error (.valueError "blocks must be 2-D")
      | _ => do
        let ms ← computeMergedMats env items
        let m := blockDiag ms
        .ok (.mat m, c ++ [(oid, m)])
  | .tree o children, c =>
    match children with
    | .nil => .error .assertionError
    | _ => do
      let (results, c') ← parseList env ad children c
      match applyOperation env o results with
      | .error e => .error e
      | .ok v => .ok (v, c')

/-- Parse a list of children left to right, threading the cache. -/
def parseList (env : Env) (ad : List (Nat × (List ℚ × Mat))) :
    OpList → Cache → Except PErr (List PVal × Cache)
  | .nil, c => .ok ([], c)
  | .cons op rest, c => do
    let (v, c') ← parseOperator env ad op c
    let (vs, c'') ← parseList env ad rest c'
    .ok (v :: vs, c'')

end

/-- Numpy fancy indexing `state[ind]`: an `IndexError` when an index is out
of range. -/
def stateSlice (state : List ℚ) (inds : List Nat) : Except PErr (List ℚ) :=
  mapExcept (fun i =>
    if h : i < state.length then .ok (state.get ⟨i, h⟩) else .error .indexError) inds

/-- The identity block of the seeded Jacobian of one variable: `rows` rows of
width `total`, with the 1 of row `r` in column `offset + r`. -/
def identityBlock (offset rows total : Nat) : Mat :=
  (List.range rows).map (fun r =>
    (List.range total).map (fun c => if c = offset + r then (1 : ℚ) else 0))

/-- Helper for `initAdArrays`: seed each value with its identity block,
advancing the column offset by the value's length. -/
def initAdAux (total : Nat) : Nat → List (List ℚ) → List (List ℚ × Mat)
  | _, [] => []
  | offset, v :: rest =>
    (v, identityBlock offset v.length total) :: initAdAux total (offset + v.length) rest

/-- Modelled from the spec: `initAdArrays` of `forward_mode.py` is not under
`src/`; per spec §4.2 each variable's dual value has the Jacobian identity
restricted to that variable's column block, of total width the sum of all
referenced variables' sizes. -/
def initAdArrays (vals : List (List ℚ)) : List (List ℚ × Mat) :=
  initAdAux (vals.map List.length).sum 0 vals

/-- `Equation.to_ad(assembler, gb, state)`: slice the state at each
variable's dof indices, seed the AD arrays, store the `_ad` dictionary
`{var_id: ad}`, and parse the operator tree (which may grow the
`_stored_matrices` cache). -/
def Equation.toAd (eq : Equation) (env : Env) (state : List ℚ) :
    Except PErr (PVal × Equation) := do
  let vals ← mapExcept (stateSlice state) eq.variableDofs
  let advars := initAdArrays vals
  let ad := eq.variableIds.zip advars
  let (res, c') ← parseOperator env ad eq.operator eq.storedMatrices
  .ok (res, { eq with ad := ad, storedMatrices := c' })

/-! ## `EquationManager.assemble_matrix_rhs` -/

/-- The scatter (projection) matrix
`sps.coo_matrix((np.ones(n), (np.arange(n), local_dofs)), shape=(n, num_global_dofs))`:
row `i` has a single 1 in column `local_dofs[i]`; scipy raises a
`ValueError` when a column index is out of range. -/
def scatterMatrix (idx : List Nat) (n : Nat) : Except PErr Mat :=
  if idx.all (· < n) then
    .ok (idx.map (fun k => (List.range n).map (fun j => if j = k then (1 : ℚ) else 0)))
  else .error (.valueError "axis 1 index exceeds matrix dimension")

/-- The `EquationManager`: the list of declared equations and the
`pp.Assembler` playing the role of the dof manager (its `full_dof` and
`dof_ind`).  The per-entity variable registry built by `_set_variables` is
not consulted during assembly and is omitted. -/
structure EquationManager where
  dofManager : DofManager
  equations : List Equation

/-- The body of the assembly loop, one equation at a time in declaration
order: evaluate `to_ad`, build the projection from `local_dofs()` (an empty
`np.hstack` raises), right-multiply `ad.jac` by it (`ad.jac` on a non-AD
result is an `AttributeError`) and negate `ad.val`. -/
def assembleLoop (env : Env) (numGlobalDofs : Nat) (state : List ℚ) :
    List Equation → Except PErr (List Mat × List (List ℚ) × List Equation)
  | [] => .ok ([], [], [])
  | eq :: rest => do
    let (pv, eq') ← eq.toAd env state
    match eq'.localDofs with
    | none => .error (.valueError "need at least one array to concatenate")
    | some localDofs => do
      let proj ← scatterMatrix localDofs numGlobalDofs
      match pv with
      | .adv val jac => do
        let (mats, bs, eqs) ← assembleLoop env numGlobalDofs state rest
        .ok (matMul jac proj :: mats, val.map Neg.neg :: bs, eq' :: eqs)
      | _ => .error .attributeError

/-- `sps.bmat([[m] for m in mat])`: vertical stacking, raising on an empty
block list. -/
def vstack : List Mat → Except PErr Mat
  | [] => .error (.valueError "blocks must be 2-D")
  | ms => .ok ms.flatten

/-- `np.hstack` over the residual list, raising on an empty list. -/
def hstackQ : List (List ℚ) → Except PErr (List ℚ)
  | [] => .error (.valueError "need at least one array to concatenate")
  | ls => .ok ls.flatten

/-- `EquationManager.assemble_matrix_rhs(state)`: assemble every equation in
declaration order, stack the projected Jacobians into `A` and concatenate
the negated residuals into `rhs`; the updated equations (their caches and
`_ad` dictionaries) are returned alongside. -/
def EquationManager.assembleMatrixRhs (em : EquationManager) (env : Env)
    (state : List ℚ) : Except PErr (Mat × List ℚ × List Equation) := do
  let (mats, bs, eqs') ← assembleLoop env em.dofManager.fullDof.sum state em.equations
  let A ← vstack mats
  let rhs ← hstackQ bs
  .ok (A, rhs, eqs')

/-! ## Concrete fixtures used by witnesses and counterexamples -/

/-- A small grid: 3 cells, 4 faces, 5 nodes. -/
def gridA : Grid := { gid := 0, numCells := 3, numFaces := 4, numNodes := 5 }

/-- A second grid carrying no variables. -/
def gridB : Grid := { gid := 1, numCells := 2, numFaces := 0, numNodes := 0 }

/-- A GridBucket with two subdomains (one declaring `p` and `T`, one without
variables) and one interface declaring `lam`. -/
def gbA : GridBucket :=
  { nodes := [
      { grid := gridA,
        vars := some [("p", { cells := some 1 }), ("T", { cells := some 1, faces := some 1 })] },
      { grid := gridB, vars := none }],
    edges := [
      { edge := { eid := 7 }, mortarCells := 2, vars := some [("lam", { cells := some 1 })] }] }

/-- The DofManager built from `gbA` (blocks `p`: 3 dofs, `T`: 7, `lam`: 2). -/
def dmA : DofManager := DofManager.build gbA

/-- An environment with empty external stores. -/
def envA : Env :=
  { bcValues := fun _ _ => [], discrMat := fun _ _ _ => none,
    scalarDiv := fun _ => [], vectorDiv := fun _ => [], fn := fun _ _ => .scalar 0 }

/-- The variable `p` on `gridA` (id 3). -/
def varP : Var := { id := 3, g := .node gridA, name := "p" }

/-- The operator tree `M * p` for a constant 2x3 matrix `M`. -/
def opMulA : Op := .tree .mul (.ofList [.matrix [[2, 0, 0], [0, 3, 0]], .var varP])

/-- The equation `M * p` over `dmA`, as built by `Equation.__init__`. -/
def eqA : Equation :=
  { operator := opMulA, name := some "test", variableDofs := [[0, 1, 2]],
    variableIds := [3], storedMatrices := [], ad := [] }

/-- A state vector of length 12 = `dmA.fullDof.sum`. -/
def stateA : List ℚ := [10, 20, 30, 1, 2, 3, 4, 5, 6, 7, 100, 200]

/-- `eqA` after `to_ad(stateA)`: the `_ad` dictionary now holds the seeded
dual value of `p` (its state slice and the identity Jacobian block). -/
def eqA' : Equation :=
  { eqA with ad := [(3, ([10, 20, 30], [[1, 0, 0], [0, 1, 0], [0, 0, 1]]))] }

/-- The manager holding just the equation `eqA`. -/
def emA : EquationManager := { dofManager := dmA, equations := [eqA] }

/-! ## Claims -/

/-- Claim C8: for every `(entity, name)` pair that was never declared,
`DofManager.dof_ind(entity, name)` fails immediately with a `KeyError`
(a LayoutError-class condition) instead of returning an index array, and
the error carries the offending entity and variable name. -/
theorem C8_dofInd_undeclared_fails (dm : DofManager) (g : GridLike) (name : String)
    (h : alookup dm.blockDof (g, name) = none) :
    dm.dofInd g name = .error (g, name) := by
  simp [DofManager.dofInd, h]

/-- Witness for C8: `gridB` declares no variable `p` in `gbA`. -/
theorem C8_dofInd_undeclared_fails_witness :
    alookup dmA.blockDof (.node gridB, "p") = none ∧
      dmA.dofInd (.node gridB) "p" = .error (.node gridB, "p") :=
  ⟨by decide, C8_dofInd_undeclared_fails dmA (.node gridB) "p" (by decide)⟩

/-- Claim C10: for every `EquationManager` with an empty equation list,
`assemble_matrix_rhs(state)` raises (the empty `sps.bmat` call) instead of
returning an empty `(A, rhs)` pair. -/
theorem C10_assemble_empty_fails (em : EquationManager) (env : Env) (state : List ℚ)
    (h : em.equations = []) :
    em.assembleMatrixRhs env state = .error (.valueError "blocks must be 2-D") := by
  simp only [EquationManager.assembleMatrixRhs, h, assembleLoop]
  rfl

/-- Witness for C10: the manager over `dmA` with no equations. -/
theorem C10_assemble_empty_fails_witness :
    (EquationManager.assembleMatrixRhs { dofManager := dmA, equations := [] } envA stateA
      = .error (.valueError "blocks must be 2-D")) :=
  C10_assemble_empty_fails { dofManager := dmA, equations := [] } envA stateA rfl

section RatEval

attribute [local semireducible] Rat.mul Rat.add Rat.sub Rat.inv

/-- Claim C7, counterexample: a malformed `mul` node with three children —
the wrong arity for a binary operation tag — does NOT raise: it silently
evaluates `results[0] * results[1]` and discards the third child, returning
the value 6 = 2 * 3 with no error. -/
theorem C7_mul_wrong_arity_no_error :
    parseOperator envA [] (.tree .mul (.ofList [.scalar 2, .scalar 3, .scalar 5])) []
      = .ok (.scalar 6, []) := by rfl

/-- Claim C7 (amended): malformed composite nodes are fatal only for some
tags: `add`/`sub` with child count other than two fail their assertion, an
unrecognized tag always raises `ValueError`, a childless composite fails the
leaf assertion, and `mul`/`div` with fewer than two parsed children raise
`IndexError` — but `mul`/`div` with extra children evaluate on the first two
and ignore the rest (see the counterexample). -/
theorem C7_malformed_partial_errors (env : Env) (o : Operation) (vs : List PVal)
    (ad : List (Nat × (List ℚ × Mat))) (c : Cache) :
    ((o = .add ∨ o = .sub) → vs.length ≠ 2 →
        applyOperation env o vs = .error .assertionError) ∧
    ((o = .mul ∨ o = .div) → vs.length < 2 →
        applyOperation env o vs = .error .indexError) ∧
    (o = .void → applyOperation env o vs = .error (.valueError "Should not happen")) ∧
    (parseOperator env ad (.tree o .nil) c = .error .assertionError) := by
  refine ⟨?_, ?_, ?_, ?_⟩
  · rintro (rfl | rfl) hlen <;>
      match vs with
      | [] => rfl
      | [_] => rfl
      | [_, _] => simp at hlen
      | _ :: _ :: _ :: _ => rfl
  · rintro (rfl | rfl) hlen <;>
      match vs with
      | [] => rfl
      | [_] => rfl
      | _ :: _ :: _ => simp only [List.length_cons] at hlen; omega
  · rintro rfl
    match vs with
    | [] => rfl
    | _ :: _ => rfl
  · rfl

/-- Witness for C7 (amended): an `add` node with three results, a `mul`
node with one result, a `void` tag and a childless composite all error. -/
theorem C7_malformed_partial_errors_witness :
    applyOperation envA .add [.scalar 2, .scalar 3, .scalar 5] = .error .assertionError ∧
    applyOperation envA .mul [.scalar 2] = .error .indexError ∧
    applyOperation envA .void [.scalar 2] = .error (.valueError "Should not happen") ∧
    parseOperator envA [] (.tree .add .nil) [] = .error .assertionError := by
  refine ⟨?_, ?_, ?_, ?_⟩
  · exact (C7_malformed_partial_errors envA .add [.scalar 2, .scalar 3, .scalar 5] [] []).1
      (Or.inl rfl) (by decide)
  · exact (C7_malformed_partial_errors envA .mul [.scalar 2] [] []).2.1
      (Or.inl rfl) (by decide)
  · exact (C7_malformed_partial_errors envA .void [.scalar 2] [] []).2.2.1 rfl
  · exact (C7_malformed_partial_errors envA .add [.scalar 2] [] []).2.2.2

end RatEval

/-! ## Layout lemmas for `DofManager.build` -/

theorem addVarBlocks_fst (key : GridLike) (size : DofInfo → Nat)
    (vs : List (String × DofInfo)) : ∀ dm : DofManager,
    (addVarBlocks key size vs dm).blockDof.map Prod.fst
      = dm.blockDof.map Prod.fst ++ vs.map (fun v => (key, v.1)) := by
  induction vs with
  | nil => intro dm; simp [addVarBlocks]
  | cons v rest ih =>
    intro dm
    obtain ⟨nm, info⟩ := v
    simp [addVarBlocks, ih]

theorem addVarBlocks_fullDof (key : GridLike) (size : DofInfo → Nat)
    (vs : List (String × DofInfo)) : ∀ dm : DofManager,
    (addVarBlocks key size vs dm).fullDof
      = dm.fullDof ++ vs.map (fun v => size v.2) := by
  induction vs with
  | nil => intro dm; simp [addVarBlocks]
  | cons v rest ih =>
    intro dm
    obtain ⟨nm, info⟩ := v
    simp [addVarBlocks, ih]

theorem addVarBlocks_len (key : GridLike) (size : DofInfo → Nat)
    (vs : List (String × DofInfo)) (dm : DofManager) :
    (addVarBlocks key size vs dm).blockDof.length
      = dm.blockDof.length + vs.length := by
  have h := congrArg List.length (addVarBlocks_fst key size vs dm)
  simpa using h

theorem addVarBlocks_snd (key : GridLike) (size : DofInfo → Nat)
    (vs : List (String × DofInfo)) : ∀ dm : DofManager,
    (addVarBlocks key size vs dm).blockDof.map Prod.snd
      = dm.blockDof.map Prod.snd ++ List.range' dm.blockDof.length vs.length := by
  induction vs with
  | nil => intro dm; simp [addVarBlocks]
  | cons v rest ih =>
    intro dm
    obtain ⟨nm, info⟩ := v
    rw [addVarBlocks, ih]
    simp only [List.length_cons, List.range'_succ]
    simp

theorem addBlocks_fst (key : GridLike) (size : DofInfo → Nat)
    (ov : Option (List (String × DofInfo))) (dm : DofManager) :
    (addBlocks key size ov dm).blockDof.map Prod.fst
      = dm.blockDof.map Prod.fst ++ (ov.getD []).map (fun v => (key, v.1)) := by
  cases ov <;> simp [addBlocks, addVarBlocks_fst]

theorem addBlocks_fullDof (key : GridLike) (size : DofInfo → Nat)
    (ov : Option (List (String × DofInfo))) (dm : DofManager) :
    (addBlocks key size ov dm).fullDof
      = dm.fullDof ++ (ov.getD []).map (fun v => size v.2) := by
  cases ov <;> simp [addBlocks, addVarBlocks_fullDof]

theorem addBlocks_snd (key : GridLike) (size : DofInfo → Nat)
    (ov : Option (List (String × DofInfo))) (dm : DofManager) :
    (addBlocks key size ov dm).blockDof.map Prod.snd
      = dm.blockDof.map Prod.snd
        ++ List.range' dm.blockDof.length (ov.getD []).length := by
  cases ov <;> simp [addBlocks, addVarBlocks_snd]

theorem addBlocks_len (key : GridLike) (size : DofInfo → Nat)
    (ov : Option (List (String × DofInfo))) (dm : DofManager) :
    (addBlocks key size ov dm).blockDof.length
      = dm.blockDof.length + (ov.getD []).length := by
  cases ov <;> simp [addBlocks, addVarBlocks_len]

theorem foldl_addBlocks_fst {α : Type} (keyF : α → GridLike)
    (sizeF : α → DofInfo → Nat) (varsF : α → Option (List (String × DofInfo)))
    (l : List α) : ∀ dm : DofManager,
    ((l.foldl (fun dm a => addBlocks (keyF a) (sizeF a) (varsF a) dm) dm).blockDof.map
        Prod.fst)
      = dm.blockDof.map Prod.fst
        ++ (l.map (fun a => ((varsF a).getD []).map (fun v => (keyF a, v.1)))).flatten := by
  induction l with
  | nil => intro dm; simp
  | cons a rest ih =>
    intro dm
    simp only [List.foldl_cons, List.map_cons, List.flatten_cons]
    rw [ih, addBlocks_fst, List.append_assoc]

theorem foldl_addBlocks_fullDof {α : Type} (keyF : α → GridLike)
    (sizeF : α → DofInfo → Nat) (varsF : α → Option (List (String × DofInfo)))
    (l : List α) : ∀ dm : DofManager,
    (l.foldl (fun dm a => addBlocks (keyF a) (sizeF a) (varsF a) dm) dm).fullDof
      = dm.fullDof
        ++ (l.map (fun a => ((varsF a).getD []).map (fun v => sizeF a v.2))).flatten := by
  induction l with
  | nil => intro dm; simp
  | cons a rest ih =>
    intro dm
    simp only [List.foldl_cons, List.map_cons, List.flatten_cons]
    rw [ih, addBlocks_fullDof, List.append_assoc]

theorem foldl_addBlocks_snd {α : Type} (keyF : α → GridLike)
    (sizeF : α → DofInfo → Nat) (varsF : α → Option (List (String × DofInfo)))
    (l : List α) : ∀ dm : DofManager,
    ((l.foldl (fun dm a => addBlocks (keyF a) (sizeF a) (varsF a) dm) dm).blockDof.map
        Prod.snd)
      = dm.blockDof.map Prod.snd
        ++ List.range' dm.blockDof.length
            (l.map (fun a => ((varsF a).getD []).length)).sum := by
  induction l with
  | nil => intro dm; simp
  | cons a rest ih =>
    intro dm
    simp only [List.foldl_cons, List.map_cons, List.sum_cons]
    rw [ih, addBlocks_snd, addBlocks_len, List.append_assoc, List.range'_append_1]
    rw [Nat.add_comm ((rest.map _).sum)]

theorem build_blockDof_fst (gb : GridBucket) :
    (DofManager.build gb).blockDof.map Prod.fst = declKeys gb := by
  unfold DofManager.build declKeys
  rw [foldl_addBlocks_fst, foldl_addBlocks_fst]
  simp

theorem build_fullDof (gb : GridBucket) :
    (DofManager.build gb).fullDof = declSizes gb := by
  unfold DofManager.build declSizes
  rw [foldl_addBlocks_fullDof, foldl_addBlocks_fullDof]
  simp

theorem foldl_addBlocks_len {α : Type} (keyF : α → GridLike)
    (sizeF : α → DofInfo → Nat) (varsF : α → Option (List (String × DofInfo)))
    (l : List α) (dm : DofManager) :
    (l.foldl (fun dm a => addBlocks (keyF a) (sizeF a) (varsF a) dm) dm).blockDof.length
      = dm.blockDof.length + (l.map (fun a => ((varsF a).getD []).length)).sum := by
  have h := congrArg List.length (foldl_addBlocks_fst keyF sizeF varsF l dm)
  simpa [Function.comp_def] using h

theorem build_blockDof_snd (gb : GridBucket) :
    (DofManager.build gb).blockDof.map Prod.snd
      = List.range (DofManager.build gb).blockDof.length := by
  unfold DofManager.build
  simp only [foldl_addBlocks_snd, foldl_addBlocks_len, List.map_nil,
    List.length_nil, List.nil_append]
  rw [List.range'_append_1, List.range_eq_range']
  congr 1
  omega

theorem build_len_eq (gb : GridBucket) :
    (DofManager.build gb).fullDof.length = (DofManager.build gb).blockDof.length := by
  have h1 : (DofManager.build gb).blockDof.length
      = ((DofManager.build gb).blockDof.map Prod.fst).length := by simp
  rw [h1, build_blockDof_fst, build_fullDof]
  simp [declKeys, declSizes, List.map_map, Function.comp_def]

theorem alookup_some_mem_snd {α β : Type} [DecidableEq α] :
    ∀ (l : List (α × β)) (a : α) (b : β), alookup l a = some b → b ∈ l.map Prod.snd := by
  intro l
  induction l with
  | nil => intro a b h; simp [alookup] at h
  | cons kv rest ih =>
    intro a b h
    obtain ⟨k, v⟩ := kv
    by_cases hk : k = a
    · simp [alookup, hk] at h
      simp [h]
    · simp [alookup, hk] at h
      simp [ih a b h]

theorem sum_take_succ_getD (l : List Nat) (b : Nat) (h : b < l.length) :
    (l.take (b + 1)).sum = (l.take b).sum + l.getD b 0 := by
  have h2 : l[b]? = some l[b] := List.getElem?_eq_getElem h
  rw [List.take_succ, h2, List.getD_eq_getElem?_getD, h2]
  simp only [Option.toList_some, Option.getD_some, List.sum_append, List.sum_cons,
    List.sum_nil]
  omega

theorem ranges_flatten (l : List Nat) : ∀ s : Nat,
    ((List.range l.length).map
        (fun b => List.range' (s + (l.take b).sum) (l.getD b 0))).flatten
      = List.range' s l.sum := by
  induction l with
  | nil => intro s; simp
  | cons x xs ih =>
    intro s
    rw [List.length_cons, List.range_succ_eq_map]
    simp only [List.map_cons, List.map_map, List.flatten_cons]
    have hcomp :
        ((fun b => List.range' (s + ((x :: xs).take b).sum) ((x :: xs).getD b 0)) ∘ Nat.succ)
          = fun b => List.range' ((s + x) + (xs.take b).sum) (xs.getD b 0) := by
      funext b
      simp [List.take_succ_cons, Nat.add_assoc]
    rw [hcomp, ih (s + x)]
    simp only [List.take_zero, List.sum_nil, Nat.add_zero, List.getD_cons_zero,
      List.sum_cons]
    rw [List.range'_append_1, Nat.add_comm xs.sum x]

/-- Claim C3: for every declared `(entity, name)` pair with block index `b`,
`dof_ind` returns exactly the contiguous range starting at
`sum(full_dof[:b])` of length `full_dof[b]` (so it ends at
`sum(full_dof[:b+1])`), and over all block indices these ranges, in block
order, partition `[0, full_dof.sum())` with no gaps and no overlaps. -/
theorem C3_dofInd_contiguous_partition (gb : GridBucket) (g : GridLike)
    (name : String) (b : Nat)
    (h : alookup (DofManager.build gb).blockDof (g, name) = some b) :
    b < (DofManager.build gb).fullDof.length ∧
    (DofManager.build gb).dofInd g name
      = .ok (List.range' ((DofManager.build gb).fullDof.take b).sum
          ((DofManager.build gb).fullDof.getD b 0)) ∧
    ((DofManager.build gb).fullDof.take (b + 1)).sum
      = ((DofManager.build gb).fullDof.take b).sum
        + (DofManager.build gb).fullDof.getD b 0 ∧
    ((List.range (DofManager.build gb).fullDof.length).map
        (fun i => List.range' ((DofManager.build gb).fullDof.take i).sum
          ((DofManager.build gb).fullDof.getD i 0))).flatten
      = List.range (DofManager.build gb).fullDof.sum := by
  have hb : b < (DofManager.build gb).fullDof.length := by
    have hmem := alookup_some_mem_snd _ _ _ h
    rw [build_blockDof_snd] at hmem
    rw [build_len_eq]
    exact List.mem_range.mp hmem
  have hsum := sum_take_succ_getD (DofManager.build gb).fullDof b hb
  refine ⟨hb, ?_, hsum, ?_⟩
  · simp only [DofManager.dofInd, h, DofManager.dofStart]
    rw [hsum, Nat.add_sub_cancel_left]
  · have hpart := ranges_flatten (DofManager.build gb).fullDof 0
    simp only [Nat.zero_add] at hpart
    rw [hpart, List.range_eq_range']

/-- Witness for C3: in `gbA` the pair `(gridA, "T")` has block index 1, and
`dof_ind` returns `[3, ..., 9]`; the three block ranges partition
`[0, 12)`. -/
theorem C3_dofInd_contiguous_partition_witness :
    alookup (DofManager.build gbA).blockDof (.node gridA, "T") = some 1 ∧
    (1 < (DofManager.build gbA).fullDof.length ∧
    (DofManager.build gbA).dofInd (.node gridA) "T"
      = .ok (List.range' ((DofManager.build gbA).fullDof.take 1).sum
          ((DofManager.build gbA).fullDof.getD 1 0)) ∧
    ((DofManager.build gbA).fullDof.take 2).sum
      = ((DofManager.build gbA).fullDof.take 1).sum
        + (DofManager.build gbA).fullDof.getD 1 0 ∧
    ((List.range (DofManager.build gbA).fullDof.length).map
        (fun i => List.range' ((DofManager.build gbA).fullDof.take i).sum
          ((DofManager.build gbA).fullDof.getD i 0))).flatten
      = List.range (DofManager.build gbA).fullDof.sum) :=
  ⟨by decide, C3_dofInd_contiguous_partition gbA (.node gridA) "T" 1 (by decide)⟩

/-- Claim C4: `DofManager` construction assigns the declared pairs, in
declaration order, the block indices `0, 1, 2, ...` with no reuse; a block's
recorded size is `cells*count_c + faces*count_f + nodes*count_n` on a grid
(`mortar_cells*count_c` on an interface, which has only cells) with missing
dof kinds defaulting to 0; entities without declared variables are skipped;
and afterwards `len(full_dof) == len(block_dof)` with `full_dof.sum()` the
sum of the declared sizes. -/
theorem C4_build_layout (gb : GridBucket) :
    (DofManager.build gb).blockDof.map Prod.fst = declKeys gb ∧
    (DofManager.build gb).blockDof.map Prod.snd
      = List.range (DofManager.build gb).blockDof.length ∧
    (DofManager.build gb).fullDof = declSizes gb ∧
    (DofManager.build gb).fullDof.length = (DofManager.build gb).blockDof.length ∧
    (DofManager.build gb).fullDof.sum = (declSizes gb).sum ∧
    (∀ (ns₁ ns₂ : List GBNode) (es : List GBEdge) (g : Grid),
      DofManager.build ⟨ns₁ ++ { grid := g, vars := none } :: ns₂, es⟩
        = DofManager.build ⟨ns₁ ++ ns₂, es⟩) ∧
    (∀ (ns : List GBNode) (es₁ es₂ : List GBEdge) (e : Edge) (mc : Nat),
      DofManager.build ⟨ns, es₁ ++ { edge := e, mortarCells := mc, vars := none } :: es₂⟩
        = DofManager.build ⟨ns, es₁ ++ es₂⟩) := by
  refine ⟨build_blockDof_fst gb, build_blockDof_snd gb, build_fullDof gb,
    build_len_eq gb, by rw [build_fullDof], ?_, ?_⟩
  · intro ns₁ ns₂ es g
    unfold DofManager.build
    simp only [List.foldl_append, List.foldl_cons]
    rfl
  · intro ns es₁ es₂ e mc
    unfold DofManager.build
    simp only [List.foldl_append, List.foldl_cons]
    rfl

/-! ## Variable-discovery lemmas for `Equation._identify_variables` -/

instance : IsTotal VarLeaf (fun a b => a.vid ≤ b.vid) :=
  ⟨fun _ _ => Nat.le_total _ _⟩

instance : IsTrans VarLeaf (fun a b => a.vid ≤ b.vid) :=
  ⟨fun _ _ _ => Nat.le_trans⟩

theorem exceptBind_ok {ε α β : Type} (a : α) (k : α → Except ε β) :
    (do let y ← (Except.ok a : Except ε α); k y) = k a := rfl

theorem exceptBind_error {ε α β : Type} (e : ε) (k : α → Except ε β) :
    (do let y ← (Except.error e : Except ε α); k y) = Except.error e := rfl

theorem dedupById_subset : ∀ (l : List VarLeaf) (x : VarLeaf),
    x ∈ dedupById l → x ∈ l := by
  intro l
  induction l with
  | nil => intro x hx; simp [dedupById] at hx
  | cons v rest ih =>
    intro x hx
    rw [dedupById] at hx
    rcases List.mem_cons.mp hx with rfl | hx'
    · exact List.mem_cons_self _ _
    · exact List.mem_cons_of_mem _ (ih x (List.mem_of_mem_filter hx'))

theorem dedupById_vid_nodup : ∀ l : List VarLeaf,
    ((dedupById l).map VarLeaf.vid).Nodup := by
  intro l
  induction l with
  | nil => simp [dedupById]
  | cons v rest ih =>
    rw [dedupById]
    simp only [List.map_cons, List.nodup_cons]
    constructor
    · intro hmem
      obtain ⟨x, hx, hvid⟩ := List.mem_map.mp hmem
      have := List.of_mem_filter hx
      simp [hvid] at this
    · exact ih.sublist ((List.filter_sublist _).map VarLeaf.vid)

theorem dedupById_vid_complete : ∀ (l : List VarLeaf) (w : VarLeaf),
    w ∈ l → w.vid ∈ (dedupById l).map VarLeaf.vid := by
  intro l
  induction l with
  | nil => intro w hw; simp at hw
  | cons v rest ih =>
    intro w hw
    rw [dedupById]
    simp only [List.map_cons, List.mem_cons]
    by_cases hvid : w.vid = v.vid
    · exact Or.inl hvid
    · rcases List.mem_cons.mp hw with rfl | hw'
      · exact absurd rfl hvid
      · obtain ⟨u, hu, huv⟩ := List.mem_map.mp (ih w hw')
        refine Or.inr (List.mem_map.mpr ⟨u, List.mem_filter.mpr ⟨hu, ?_⟩, huv⟩)
        simp [huv, hvid]

theorem mapExcept_ok_forall2 {ε α β : Type} (f : α → Except ε β) :
    ∀ (l : List α) (ys : List β), mapExcept f l = .ok ys →
      List.Forall₂ (fun x y => f x = .ok y) l ys := by
  intro l
  induction l with
  | nil =>
    intro ys h
    rw [mapExcept] at h
    cases h
    constructor
  | cons x xs ih =>
    intro ys h
    rw [mapExcept] at h
    cases hx : f x with
    | error e => rw [hx, exceptBind_error] at h; cases h
    | ok y =>
      rw [hx, exceptBind_ok] at h
      cases hxs : mapExcept f xs with
      | error e => rw [hxs, exceptBind_error] at h; cases h
      | ok ys' =>
        rw [hxs, exceptBind_ok] at h
        cases h
        exact List.Forall₂.cons hx (ih ys' hxs)

/-- Claim C2: the variables of an equation are the Variable/MergedVariable
leaves of its tree, deduplicated by id and sorted ascending by id; the
per-variable dof arrays follow that order, `local_dofs()` is their
concatenation in that order, and a MergedVariable's effective id is the id
of its first constituent sub-variable. -/
theorem C2_variable_discovery (dm : DofManager) (op : Op)
    (dofs : List (List Nat)) (ids : List Nat)
    (h : identifyVariables dm op = .ok (dofs, ids)) :
    ids = (sortById (dedupById (findSubtreeVariables op))).map VarLeaf.vid ∧
    List.Sorted (· ≤ ·) ids ∧
    ids.Nodup ∧
    (∀ v ∈ sortById (dedupById (findSubtreeVariables op)),
      v ∈ findSubtreeVariables op) ∧
    (∀ w ∈ findSubtreeVariables op, w.vid ∈ ids) ∧
    List.Forall₂ (fun v d => varLeafDofs dm v = .ok d)
      (sortById (dedupById (findSubtreeVariables op))) dofs ∧
    (∀ f rest, VarLeaf.vid (.merged f rest) = f.id) ∧
    (∀ name, Equation.make op dm name
      = .ok { operator := op, name := name, variableDofs := dofs,
              variableIds := ids, storedMatrices := [], ad := [] }) ∧
    (∀ eq : Equation, eq.variableDofs = dofs → dofs ≠ [] →
      eq.localDofs = some dofs.flatten) := by
  have hperm : List.Perm (sortById (dedupById (findSubtreeVariables op)))
      (dedupById (findSubtreeVariables op)) :=
    List.perm_insertionSort _ _
  have hmapM : mapExcept (varLeafDofs dm)
        (sortById (dedupById (findSubtreeVariables op))) = .ok dofs ∧
      ids = (sortById (dedupById (findSubtreeVariables op))).map VarLeaf.vid := by
    dsimp only [identifyVariables] at h
    cases hmm : mapExcept (varLeafDofs dm)
        (sortById (dedupById (findSubtreeVariables op))) with
    | error e => rw [hmm, exceptBind_error] at h; cases h
    | ok inds =>
      rw [hmm, exceptBind_ok] at h
      cases h
      exact ⟨rfl, rfl⟩
  refine ⟨hmapM.2, ?_, ?_, ?_, ?_, ?_, fun f rest => rfl, ?_, ?_⟩
  · rw [hmapM.2]
    have hs : List.Sorted (fun a b : VarLeaf => a.vid ≤ b.vid)
        (sortById (dedupById (findSubtreeVariables op))) :=
      List.sorted_insertionSort _ _
    exact List.Pairwise.map _ (fun a b hab => hab) hs
  · rw [hmapM.2]
    have hnd := dedupById_vid_nodup (findSubtreeVariables op)
    exact ((hperm.map VarLeaf.vid).nodup_iff).mpr hnd
  · intro v hv
    exact dedupById_subset _ v (hperm.mem_iff.mp hv)
  · intro w hw
    rw [hmapM.2]
    have := dedupById_vid_complete _ w hw
    exact ((hperm.map VarLeaf.vid).mem_iff).mpr this
  · exact mapExcept_ok_forall2 _ _ _ hmapM.1
  · intro name
    unfold Equation.make
    rw [h]
    rfl
  · intro eq heq hne
    dsimp only [Equation.localDofs, hstackN]
    rw [heq]
    match dofs, hne with
    | d :: rest, _ => rfl

/-- Witness for C2: the equation `M * p` over `dmA` identifies exactly the
variable `p` (id 3, dofs `[0, 1, 2]`). -/
theorem C2_variable_discovery_witness :
    identifyVariables dmA opMulA = .ok ([[0, 1, 2]], [3]) ∧
    ([3] : List Nat)
      = (sortById (dedupById (findSubtreeVariables opMulA))).map VarLeaf.vid := by
  refine ⟨by decide, ?_⟩
  exact (C2_variable_discovery dmA opMulA [[0, 1, 2]] [3] (by decide)).1

/-! ## Assembly lemmas -/

theorem toAd_ok_fields (eq : Equation) (env : Env) (state : List ℚ) (pv : PVal)
    (eq' : Equation) (h : eq.toAd env state = .ok (pv, eq')) :
    eq'.operator = eq.operator ∧ eq'.name = eq.name ∧
    eq'.variableDofs = eq.variableDofs ∧ eq'.variableIds = eq.variableIds := by
  unfold Equation.toAd at h
  cases hv : mapExcept (stateSlice state) eq.variableDofs with
  | error e => rw [hv, exceptBind_error] at h; cases h
  | ok vals =>
    rw [hv, exceptBind_ok] at h
    dsimp only at h
    cases hp : parseOperator env (eq.variableIds.zip (initAdArrays vals))
        eq.operator eq.storedMatrices with
    | error e => rw [hp, exceptBind_error] at h; cases h
    | ok rc =>
      obtain ⟨res, c'⟩ := rc
      rw [hp, exceptBind_ok] at h
      cases h
      exact ⟨rfl, rfl, rfl, rfl⟩

theorem scatterMatrix_ok (idx : List Nat) (n : Nat) (h : ∀ d ∈ idx, d < n) :
    scatterMatrix idx n
      = .ok (idx.map (fun k =>
          (List.range n).map (fun j => if j = k then (1 : ℚ) else 0))) := by
  unfold scatterMatrix
  rw [if_pos]
  exact List.all_eq_true.mpr (fun d hd => decide_eq_true (h d hd))

theorem assembleLoop_ok (env : Env) (n : Nat) (state : List ℚ) :
    ∀ (eqs : List Equation) (mats : List Mat) (bs : List (List ℚ))
      (eqs' : List Equation),
    assembleLoop env n state eqs = .ok (mats, bs, eqs') →
    mats.length = eqs.length ∧ bs.length = eqs.length ∧
    eqs'.length = eqs.length ∧
    ∀ i (hi : i < eqs.length),
      ∃ val jac eq1 idx proj,
        (eqs.get ⟨i, hi⟩).toAd env state = .ok (.adv val jac, eq1) ∧
        eq1.localDofs = some idx ∧
        scatterMatrix idx n = .ok proj ∧
        mats.getD i [] = matMul jac proj ∧
        bs.getD i [] = val.map Neg.neg ∧
        eqs'.getD i eq1 = eq1 := by
  intro eqs
  induction eqs with
  | nil =>
    intro mats bs eqs' h
    rw [assembleLoop] at h
    cases h
    exact ⟨rfl, rfl, rfl, fun i hi => absurd hi (by simp)⟩
  | cons eq rest ih =>
    intro mats bs eqs' h
    rw [assembleLoop] at h
    cases ht : eq.toAd env state with
    | error e => rw [ht, exceptBind_error] at h; cases h
    | ok pc =>
      obtain ⟨pv, eq1⟩ := pc
      rw [ht, exceptBind_ok] at h
      dsimp only at h
      cases hl : eq1.localDofs with
      | none => rw [hl] at h; cases h
      | some idx =>
        rw [hl] at h
        dsimp only at h
        cases hs : scatterMatrix idx n with
        | error e => rw [hs, exceptBind_error] at h; cases h
        | ok proj =>
          rw [hs, exceptBind_ok] at h
          cases pv with
          | adv val jac =>
            dsimp only at h
            cases hr : assembleLoop env n state rest with
            | error e => rw [hr, exceptBind_error] at h; cases h
            | ok triple =>
              obtain ⟨mats0, bs0, eqs0⟩ := triple
              rw [hr, exceptBind_ok] at h
              cases h
              obtain ⟨hm, hb, he, hper⟩ := ih mats0 bs0 eqs0 hr
              refine ⟨by simp [hm], by simp [hb], by simp [he], ?_⟩
              intro i hi
              match i with
              | 0 =>
                exact ⟨val, jac, eq1, idx, proj, ht, hl, hs, rfl, rfl, rfl⟩
              | (j + 1) =>
                have hj : j < rest.length := by
                  simpa [Nat.succ_lt_succ_iff] using hi
                obtain ⟨v, jc, e1, ix, pj, h1, h2, h3, h4, h5, h6⟩ := hper j hj
                exact ⟨v, jc, e1, ix, pj, h1, h2, h3, h4, h5, h6⟩
          | scalar x => rw [show (PVal.scalar x) = PVal.scalar x from rfl] at h; cases h
          | arr v => cases h
          | mat m => cases h
          | func fid => cases h

/-- Claim C1: for an Equation whose `local_dofs()` returns `idx` (all below
`num_global_dofs`), the projection built in `assemble_matrix_rhs` has shape
`(idx.length, num_global_dofs)`, has `projection[i, idx[i]] == 1` and all
other entries of row `i` equal to 0, and the equation's row block in the
assembled matrix is its local Jacobian right-multiplied by this
projection. -/
theorem C1_projection_scatter (env : Env) (dm : DofManager) (state : List ℚ)
    (eq : Equation) (val : List ℚ) (jac : Mat) (eq1 : Equation) (idx : List Nat)
    (ht : eq.toAd env state = .ok (.adv val jac, eq1))
    (hl : eq.localDofs = some idx)
    (hb : ∀ d ∈ idx, d < dm.fullDof.sum) :
    ∃ P : Mat,
      scatterMatrix idx dm.fullDof.sum = .ok P ∧
      P.length = idx.length ∧
      (∀ row ∈ P, row.length = dm.fullDof.sum) ∧
      (∀ i, i < idx.length →
        (P.getD i []).getD (idx.getD i 0) 0 = 1 ∧
        ∀ j < dm.fullDof.sum, j ≠ idx.getD i 0 → (P.getD i []).getD j 0 = 0) ∧
      (∀ (pre rest : List Equation) (mats : List Mat) (bs : List (List ℚ))
        (eqs' : List Equation),
        assembleLoop env dm.fullDof.sum state (pre ++ eq :: rest)
          = .ok (mats, bs, eqs') →
        mats.getD pre.length [] = matMul jac P) := by
  set n := dm.fullDof.sum with hn
  refine ⟨idx.map (fun k => (List.range n).map (fun j => if j = k then (1 : ℚ) else 0)),
    scatterMatrix_ok idx n hb, by simp, ?_, ?_, ?_⟩
  · intro row hrow
    obtain ⟨k, _, rfl⟩ := List.mem_map.mp hrow
    simp
  · intro i hi
    have hPi : (idx.map (fun k =>
          (List.range n).map (fun j => if j = k then (1 : ℚ) else 0))).getD i []
        = (List.range n).map (fun j => if j = idx.getD i 0 then (1 : ℚ) else 0) := by
      rw [List.getD_eq_getElem _ _ (by simpa using hi), List.getElem_map,
        List.getD_eq_getElem _ _ hi]
    have hd : idx.getD i 0 < n := by
      refine hb _ ?_
      rw [List.getD_eq_getElem _ _ hi]
      exact List.getElem_mem _
    constructor
    · rw [hPi, List.getD_eq_getElem _ _ (by simpa using hd), List.getElem_map,
        List.getElem_range]
      simp
    · intro j hj hne
      rw [hPi, List.getD_eq_getElem _ _ (by simpa using hj), List.getElem_map,
        List.getElem_range, if_neg hne]
  · intro pre rest mats bs eqs' hasm
    have hlen : pre.length < (pre ++ eq :: rest).length := by simp
    obtain ⟨-, -, -, hper⟩ := assembleLoop_ok env n state _ _ _ _ hasm
    obtain ⟨v, jc, e1, ix, pj, h1, h2, h3, h4, -, -⟩ := hper pre.length hlen
    have hget : (pre ++ eq :: rest).get ⟨pre.length, hlen⟩ = eq := by
      simp [List.getElem_append_right]
    rw [hget, ht] at h1
    have h1' := Except.ok.inj h1
    have hv : PVal.adv val jac = PVal.adv v jc := congrArg Prod.fst h1'
    have he : eq1 = e1 := congrArg Prod.snd h1'
    have hjac : jac = jc := ((PVal.adv.injEq _ _ _ _).mp hv).2
    have hfields := toAd_ok_fields eq env state _ _ ht
    have hloc : e1.localDofs = some idx := by
      rw [← he]
      unfold Equation.localDofs at hl ⊢
      rw [hfields.2.2.1]
      exact hl
    rw [hloc] at h2
    have hix : ix = idx := (Option.some.inj h2).symm
    rw [hix, scatterMatrix_ok idx n hb] at h3
    have hpj := Except.ok.inj h3
    rw [h4, ← hjac, ← hpj]

/-- Claim C5: when `assemble_matrix_rhs` returns, the row blocks of `A` are
the equations' projected local Jacobians stacked in declaration order, and
`rhs` is the concatenation, in the same order, of each equation's residual
multiplied by -1. -/
theorem C5_assemble_stacking (em : EquationManager) (env : Env) (state : List ℚ)
    (A : Mat) (rhs : List ℚ) (eqs' : List Equation)
    (h : em.assembleMatrixRhs env state = .ok (A, rhs, eqs')) :
    em.equations ≠ [] ∧
    ∃ (mats : List Mat) (bs : List (List ℚ)),
      assembleLoop env em.dofManager.fullDof.sum state em.equations
        = .ok (mats, bs, eqs') ∧
      A = mats.flatten ∧
      rhs = bs.flatten ∧
      mats.length = em.equations.length ∧
      bs.length = em.equations.length ∧
      ∀ i (hi : i < em.equations.length),
        ∃ val jac eq1 idx proj,
          (em.equations.get ⟨i, hi⟩).toAd env state = .ok (.adv val jac, eq1) ∧
          eq1.localDofs = some idx ∧
          scatterMatrix idx em.dofManager.fullDof.sum = .ok proj ∧
          mats.getD i [] = matMul jac proj ∧
          bs.getD i [] = val.map Neg.neg := by
  unfold EquationManager.assembleMatrixRhs at h
  cases hloop : assembleLoop env em.dofManager.fullDof.sum state em.equations with
  | error e => rw [hloop, exceptBind_error] at h; cases h
  | ok triple =>
    obtain ⟨mats0, bs0, eqs0⟩ := triple
    rw [hloop, exceptBind_ok] at h
    dsimp only at h
    obtain ⟨hm, hb2, _, hper⟩ := assembleLoop_ok _ _ _ _ _ _ _ hloop
    cases mats0 with
    | nil =>
      rw [show vstack [] = .error (.valueError "blocks must be 2-D") from rfl,
        exceptBind_error] at h
      cases h
    | cons m ms =>
      rw [show vstack (m :: ms) = .ok ((m :: ms).flatten) from rfl,
        exceptBind_ok] at h
      cases bs0 with
      | nil =>
        rw [show hstackQ [] = .error (.valueError
          "need at least one array to concatenate") from rfl,
          exceptBind_error] at h
        cases h
      | cons b bs1 =>
        rw [show hstackQ (b :: bs1) = .ok ((b :: bs1).flatten) from rfl,
          exceptBind_ok] at h
        cases h
        refine ⟨?_, (m :: ms), (b :: bs1), rfl, rfl, rfl, hm, hb2, ?_⟩
        · intro hcon
          rw [hcon] at hm
          simp at hm
        · intro i hi
          obtain ⟨v, jc, e1, ix, pj, h1, h2, h3, h4, h5, -⟩ := hper i hi
          exact ⟨v, jc, e1, ix, pj, h1, h2, h3, h4, h5⟩

/-- Claim C9 (amended): `to_ad` leaves the operator tree, name, variable dof
arrays and variable ids of an Equation unchanged (mutating only the matrix
cache and the `_ad` seeding dictionary), and consequently
`assemble_matrix_rhs` preserves those four fields of every equation. -/
theorem C9_toAd_preserves_fields (eq : Equation) (env : Env) (state : List ℚ)
    (pv : PVal) (eq' : Equation)
    (h : eq.toAd env state = .ok (pv, eq')) :
    (eq'.operator = eq.operator ∧ eq'.name = eq.name ∧
      eq'.variableDofs = eq.variableDofs ∧ eq'.variableIds = eq.variableIds) ∧
    ∀ (em : EquationManager) (A : Mat) (rhs : List ℚ) (eqs' : List Equation),
      em.assembleMatrixRhs env state = .ok (A, rhs, eqs') →
      ∀ i (hi : i < em.equations.length),
        (eqs'.getD i (em.equations.get ⟨i, hi⟩)).operator
            = (em.equations.get ⟨i, hi⟩).operator ∧
        (eqs'.getD i (em.equations.get ⟨i, hi⟩)).name
            = (em.equations.get ⟨i, hi⟩).name ∧
        (eqs'.getD i (em.equations.get ⟨i, hi⟩)).variableDofs
            = (em.equations.get ⟨i, hi⟩).variableDofs ∧
        (eqs'.getD i (em.equations.get ⟨i, hi⟩)).variableIds
            = (em.equations.get ⟨i, hi⟩).variableIds := by
  refine ⟨toAd_ok_fields eq env state pv eq' h, ?_⟩
  intro em A rhs eqs' hasm i hi
  unfold EquationManager.assembleMatrixRhs at hasm
  cases hloop : assembleLoop env em.dofManager.fullDof.sum state em.equations with
  | error e => rw [hloop, exceptBind_error] at hasm; cases hasm
  | ok triple =>
    obtain ⟨mats0, bs0, eqs0⟩ := triple
    rw [hloop, exceptBind_ok] at hasm
    dsimp only at hasm
    obtain ⟨-, -, hel, hper⟩ := assembleLoop_ok _ _ _ _ _ _ _ hloop
    obtain ⟨v, jc, e1, ix, pj, h1, -, -, -, -, h6⟩ := hper i hi
    have heqs0 : eqs' = eqs0 := by
      cases hv : vstack mats0 with
      | error e => rw [hv, exceptBind_error] at hasm; cases hasm
      | ok A0 =>
        rw [hv, exceptBind_ok] at hasm
        cases hq : hstackQ bs0 with
        | error e => rw [hq, exceptBind_error] at hasm; cases hasm
        | ok r0 =>
          rw [hq, exceptBind_ok] at hasm
          cases hasm
          rfl
    have hi' : i < eqs0.length := by rw [hel]; exact hi
    have hgd : ∀ d : Equation, eqs0.getD i d = eqs0.get ⟨i, hi'⟩ := by
      intro d
      rw [List.getD_eq_getElem _ _ hi']
      rfl
    have h6' : eqs0.get ⟨i, hi'⟩ = e1 := by rw [← hgd e1]; exact h6
    have hfields := toAd_ok_fields _ env state _ _ h1
    rw [heqs0, hgd, h6']
    exact hfields

section RatEvalB

attribute [local semireducible] Rat.mul Rat.add Rat.sub Rat.inv

/-- Claim C9, counterexample: `to_ad` does mutate a field other than the
matrix cache — the `_ad` seeding dictionary is (re)assigned on every call:
on `eqA` it changes from the empty dictionary to the seeded one. -/
theorem C9_toAd_mutates_ad :
    (eqA.toAd envA stateA).map (fun p => p.2.ad)
      = .ok [(3, ([10, 20, 30], [[1, 0, 0], [0, 1, 0], [0, 0, 1]]))] ∧
    eqA.ad = [] := ⟨by decide, rfl⟩

/-- Witness for C9 (amended): the concrete call on `eqA` preserves its
operator, name, dof arrays and ids. -/
theorem C9_toAd_preserves_fields_witness :
    eqA.toAd envA stateA = .ok (.adv [20, 60] [[2, 0, 0], [0, 3, 0]], eqA') ∧
    ((eqA'.operator = eqA.operator ∧ eqA'.name = eqA.name ∧
        eqA'.variableDofs = eqA.variableDofs ∧
        eqA'.variableIds = eqA.variableIds) ∧
      ∀ (em : EquationManager) (A : Mat) (rhs : List ℚ) (eqs' : List Equation),
        em.assembleMatrixRhs envA stateA = .ok (A, rhs, eqs') →
        ∀ i (hi : i < em.equations.length),
          (eqs'.getD i (em.equations.get ⟨i, hi⟩)).operator
              = (em.equations.get ⟨i, hi⟩).operator ∧
          (eqs'.getD i (em.equations.get ⟨i, hi⟩)).name
              = (em.equations.get ⟨i, hi⟩).name ∧
          (eqs'.getD i (em.equations.get ⟨i, hi⟩)).variableDofs
              = (em.equations.get ⟨i, hi⟩).variableDofs ∧
          (eqs'.getD i (em.equations.get ⟨i, hi⟩)).variableIds
              = (em.equations.get ⟨i, hi⟩).variableIds) :=
  ⟨by decide, C9_toAd_preserves_fields eqA envA stateA
    (.adv [20, 60] [[2, 0, 0], [0, 3, 0]]) eqA' (by decide)⟩

/-- Witness for C1: the equation `M * p` with local dofs `[0, 1, 2]` inside
the 12-dof global system of `dmA`. -/
theorem C1_projection_scatter_witness :
    eqA.toAd envA stateA = .ok (.adv [20, 60] [[2, 0, 0], [0, 3, 0]], eqA') ∧
    eqA.localDofs = some [0, 1, 2] ∧
    (∀ d ∈ ([0, 1, 2] : List Nat), d < dmA.fullDof.sum) ∧
    (∃ P : Mat,
      scatterMatrix [0, 1, 2] dmA.fullDof.sum = .ok P ∧
      P.length = ([0, 1, 2] : List Nat).length ∧
      (∀ row ∈ P, row.length = dmA.fullDof.sum) ∧
      (∀ i, i < ([0, 1, 2] : List Nat).length →
        (P.getD i []).getD (([0, 1, 2] : List Nat).getD i 0) 0 = 1 ∧
        ∀ j < dmA.fullDof.sum, j ≠ ([0, 1, 2] : List Nat).getD i 0 →
          (P.getD i []).getD j 0 = 0) ∧
      (∀ (pre rest : List Equation) (mats : List Mat) (bs : List (List ℚ))
        (eqs' : List Equation),
        assembleLoop envA dmA.fullDof.sum stateA (pre ++ eqA :: rest)
          = .ok (mats, bs, eqs') →
        mats.getD pre.length [] = matMul [[2, 0, 0], [0, 3, 0]] P)) :=
  ⟨by decide, by decide, by decide,
    C1_projection_scatter envA dmA stateA eqA [20, 60] [[2, 0, 0], [0, 3, 0]]
      eqA' [0, 1, 2] (by decide) (by decide) (by decide)⟩

/-- Witness for C5: assembling the single equation `M * p`. -/
theorem C5_assemble_stacking_witness :
    emA.assembleMatrixRhs envA stateA
      = .ok ([[2, 0, 0, 0, 0, 0, 0, 0, 0, 0, 0, 0],
              [0, 3, 0, 0, 0, 0, 0, 0, 0, 0, 0, 0]], [-20, -60], [eqA']) ∧
    (emA.equations ≠ [] ∧
    ∃ (mats : List Mat) (bs : List (List ℚ)),
      assembleLoop envA emA.dofManager.fullDof.sum stateA emA.equations
        = .ok (mats, bs, [eqA']) ∧
      [[2, 0, 0, 0, 0, 0, 0, 0, 0, 0, 0, 0],
       [0, 3, 0, 0, 0, 0, 0, 0, 0, 0, 0, 0]] = mats.flatten ∧
      ([-20, -60] : List ℚ) = bs.flatten ∧
      mats.length = emA.equations.length ∧
      bs.length = emA.equations.length ∧
      ∀ i (hi : i < emA.equations.length),
        ∃ val jac eq1 idx proj,
          (emA.equations.get ⟨i, hi⟩).toAd envA stateA = .ok (.adv val jac, eq1) ∧
          eq1.localDofs = some idx ∧
          scatterMatrix idx emA.dofManager.fullDof.sum = .ok proj ∧
          mats.getD i [] = matMul jac proj ∧
          bs.getD i [] = val.map Neg.neg) :=
  ⟨by decide, C5_assemble_stacking emA envA stateA _ _ [eqA'] (by decide)⟩

end RatEvalB

/-! ## Cache lemmas for idempotent assembly -/

theorem alookup_append_left {α β : Type} [DecidableEq α] :
    ∀ (l t : List (α × β)) (k : α) (v : β),
      alookup l k = some v → alookup (l ++ t) k = some v := by
  intro l t k v h
  induction l with
  | nil => simp [alookup] at h
  | cons kv rest ih =>
    obtain ⟨k0, v0⟩ := kv
    by_cases hk : k0 = k
    · simp [alookup, hk] at h ⊢
      exact h
    · simp [alookup, hk] at h ⊢
      exact ih h

theorem alookup_append_none {α β : Type} [DecidableEq α] :
    ∀ (l t : List (α × β)) (k : α),
      alookup l k = none → alookup (l ++ t) k = alookup t k := by
  intro l t k h
  induction l with
  | nil => simp [alookup]
  | cons kv rest ih =>
    obtain ⟨k0, v0⟩ := kv
    by_cases hk : k0 = k
    · simp [alookup, hk] at h
    · simp [alookup, hk] at h ⊢
      exact ih h

/-- `CacheLe c d`: every entry present in `c` is present, with the same
matrix, in `d`. -/
def CacheLe (c d : Cache) : Prop :=
  ∀ k m, alookup c k = some m → alookup d k = some m

theorem cacheLe_refl (c : Cache) : CacheLe c c := fun _ _ h => h

mutual

theorem parseOp_extend (env : Env) (ad : List (Nat × (List ℚ × Mat))) :
    ∀ (op : Op) (c : Cache) (v : PVal) (c' : Cache),
      parseOperator env ad op c = .ok (v, c') → ∃ t, c' = c ++ t := by
  intro op
  cases op with
  | var w =>
    intro c v c' h
    simp only [parseOperator] at h
    cases hk : alookup ad w.id with
    | none => rw [hk] at h; cases h
    | some p => obtain ⟨a, b⟩ := p; rw [hk] at h; cases h; exact ⟨[], by simp⟩
  | mergedVar f r =>
    intro c v c' h
    simp only [parseOperator] at h
    cases hk : alookup ad f.id with
    | none => rw [hk] at h; cases h
    | some p => obtain ⟨a, b⟩ := p; rw [hk] at h; cases h; exact ⟨[], by simp⟩
  | boundaryCondition kw grids =>
    intro c v c' h
    cases grids with
    | nil => simp only [parseOperator] at h; cases h
    | cons g gs => simp only [parseOperator] at h; cases h; exact ⟨[], by simp⟩
  | matrix m =>
    intro c v c' h
    simp only [parseOperator] at h; cases h; exact ⟨[], by simp⟩
  | array a =>
    intro c v c' h
    simp only [parseOperator] at h; cases h; exact ⟨[], by simp⟩
  | function fid =>
    intro c v c' h
    simp only [parseOperator] at h; cases h; exact ⟨[], by simp⟩
  | scalar x =>
    intro c v c' h
    simp only [parseOperator] at h; cases h; exact ⟨[], by simp⟩
  | divergence isScalar grids =>
    intro c v c' h
    cases grids with
    | nil => simp only [parseOperator] at h; cases h
    | cons g gs => simp only [parseOperator] at h; cases h; exact ⟨[], by simp⟩
  | mergedOperator oid items =>
    intro c v c' h
    simp only [parseOperator] at h
    cases hk : alookup c oid with
    | some m => rw [hk] at h; cases h; exact ⟨[], by simp⟩
    | none =>
      rw [hk] at h
      cases items with
      | nil => cases h
      | cons it its =>
        cases hcm : computeMergedMats env (it :: its) with
        | error e => rw [hcm, exceptBind_error] at h; cases h
        | ok ms =>
          rw [hcm, exceptBind_ok] at h
          cases h
          exact ⟨[(oid, blockDiag ms)], rfl⟩
  | tree o children =>
    intro c v c' h
    cases children with
    | nil => simp only [parseOperator] at h; cases h
    | cons hd tl =>
      simp only [parseOperator] at h
      cases hpl : parseList env ad (.cons hd tl) c with
      | error e => rw [hpl, exceptBind_error] at h; cases h
      | ok rc =>
        obtain ⟨results, c₂⟩ := rc
        rw [hpl, exceptBind_ok] at h
        dsimp only at h
        cases hap : applyOperation env o results with
        | error e => rw [hap] at h; cases h
        | ok w =>
          rw [hap] at h
          cases h
          exact parseList_extend env ad (.cons hd tl) c results c' hpl

theorem parseList_extend (env : Env) (ad : List (Nat × (List ℚ × Mat))) :
    ∀ (l : OpList) (c : Cache) (vs : List PVal) (c' : Cache),
      parseList env ad l c = .ok (vs, c') → ∃ t, c' = c ++ t := by
  intro l
  cases l with
  | nil =>
    intro c vs c' h
    simp only [parseList] at h; cases h; exact ⟨[], by simp⟩
  | cons hd tl =>
    intro c vs c' h
    simp only [parseList] at h
    cases h1 : parseOperator env ad hd c with
    | error e => rw [h1, exceptBind_error] at h; cases h
    | ok rc =>
      obtain ⟨v1, c1⟩ := rc
      rw [h1, exceptBind_ok] at h
      dsimp only at h
      cases h2 : parseList env ad tl c1 with
      | error e => rw [h2, exceptBind_error] at h; cases h
      | ok rc2 =>
        obtain ⟨vs2, c2⟩ := rc2
        rw [h2, exceptBind_ok] at h
        cases h
        obtain ⟨t1, ht1⟩ := parseOp_extend env ad hd c v1 c1 h1
        obtain ⟨t2, ht2⟩ := parseList_extend env ad tl c1 vs2 _ h2
        exact ⟨t1 ++ t2, by rw [ht2, ht1, List.append_assoc]⟩

end

mutual

theorem parseOp_stable (env : Env) (ad : List (Nat × (List ℚ × Mat))) :
    ∀ (op : Op) (c : Cache) (v : PVal) (c₁ : Cache),
      parseOperator env ad op c = .ok (v, c₁) →
      ∀ d : Cache, CacheLe c₁ d → parseOperator env ad op d = .ok (v, d) := by
  intro op
  cases op with
  | var w =>
    intro c v c₁ h d hd
    simp only [parseOperator] at h ⊢
    cases hk : alookup ad w.id with
    | none => rw [hk] at h; cases h
    | some p => obtain ⟨a, b⟩ := p; rw [hk] at h; cases h; rfl
  | mergedVar f r =>
    intro c v c₁ h d hd
    simp only [parseOperator] at h ⊢
    cases hk : alookup ad f.id with
    | none => rw [hk] at h; cases h
    | some p => obtain ⟨a, b⟩ := p; rw [hk] at h; cases h; rfl
  | boundaryCondition kw grids =>
    intro c v c₁ h d hd
    cases grids with
    | nil => simp only [parseOperator] at h; cases h
    | cons g gs => simp only [parseOperator] at h ⊢; cases h; rfl
  | matrix m =>
    intro c v c₁ h d hd
    simp only [parseOperator] at h ⊢; cases h; rfl
  | array a =>
    intro c v c₁ h d hd
    simp only [parseOperator] at h ⊢; cases h; rfl
  | function fid =>
    intro c v c₁ h d hd
    simp only [parseOperator] at h ⊢; cases h; rfl
  | scalar x =>
    intro c v c₁ h d hd
    simp only [parseOperator] at h ⊢; cases h; rfl
  | divergence isScalar grids =>
    intro c v c₁ h d hd
    cases grids with
    | nil => simp only [parseOperator] at h; cases h
    | cons g gs => simp only [parseOperator] at h ⊢; cases h; rfl
  | mergedOperator oid items =>
    intro c v c₁ h d hd
    simp only [parseOperator] at h ⊢
    cases hk : alookup c oid with
    | some m =>
      rw [hk] at h
      cases h
      rw [hd oid m hk]
    | none =>
      rw [hk] at h
      cases items with
      | nil => cases h
      | cons it its =>
        cases hcm : computeMergedMats env (it :: its) with
        | error e => rw [hcm, exceptBind_error] at h; cases h
        | ok ms =>
          rw [hcm, exceptBind_ok] at h
          cases h
          have hc1 : alookup (c ++ [(oid, blockDiag ms)]) oid = some (blockDiag ms) := by
            rw [alookup_append_none c _ oid hk]
            simp [alookup]
          rw [hd oid (blockDiag ms) hc1]
  | tree o children =>
    intro c v c₁ h d hd
    cases children with
    | nil => simp only [parseOperator] at h; cases h
    | cons hd0 tl =>
      simp only [parseOperator] at h ⊢
      cases hpl : parseList env ad (.cons hd0 tl) c with
      | error e => rw [hpl, exceptBind_error] at h; cases h
      | ok rc =>
        obtain ⟨results, c₂⟩ := rc
        rw [hpl, exceptBind_ok] at h
        dsimp only at h
        cases hap : applyOperation env o results with
        | error e => rw [hap] at h; cases h
        | ok w =>
          rw [hap] at h
          cases h
          have hstable := parseList_stable env ad (.cons hd0 tl) c results _ hpl d hd
          rw [hstable, exceptBind_ok]
          dsimp only
          rw [hap]

theorem parseList_stable (env : Env) (ad : List (Nat × (List ℚ × Mat))) :
    ∀ (l : OpList) (c : Cache) (vs : List PVal) (c₁ : Cache),
      parseList env ad l c = .ok (vs, c₁) →
      ∀ d : Cache, CacheLe c₁ d → parseList env ad l d = .ok (vs, d) := by
  intro l
  cases l with
  | nil =>
    intro c vs c₁ h d hd
    simp only [parseList] at h ⊢; cases h; rfl
  | cons hd0 tl =>
    intro c vs c₁ h d hd
    simp only [parseList] at h ⊢
    cases h1 : parseOperator env ad hd0 c with
    | error e => rw [h1, exceptBind_error] at h; cases h
    | ok rc =>
      obtain ⟨v1, ca⟩ := rc
      rw [h1, exceptBind_ok] at h
      dsimp only at h
      cases h2 : parseList env ad tl ca with
      | error e => rw [h2, exceptBind_error] at h; cases h
      | ok rc2 =>
        obtain ⟨vs2, c₂⟩ := rc2
        rw [h2, exceptBind_ok] at h
        cases h
        obtain ⟨t2, ht2⟩ := parseList_extend env ad tl ca vs2 _ h2
        have hcaLe : CacheLe ca c₂ := by
          intro k m hm
          rw [ht2]
          exact alookup_append_left ca t2 k m hm
        have hcaD : CacheLe ca d := fun k m hm => hd k m (hcaLe k m hm)
        have hop := parseOp_stable env ad hd0 c v1 ca h1 d hcaD
        rw [hop, exceptBind_ok]
        dsimp only
        have hlist := parseList_stable env ad tl ca vs2 _ h2 d hd
        rw [hlist, exceptBind_ok]

end

theorem toAd_repeat (eq : Equation) (env : Env) (state : List ℚ) (pv : PVal)
    (eq' : Equation) (h : eq.toAd env state = .ok (pv, eq')) :
    eq'.toAd env state = .ok (pv, eq') := by
  unfold Equation.toAd at h ⊢
  cases hv : mapExcept (stateSlice state) eq.variableDofs with
  | error e => rw [hv, exceptBind_error] at h; cases h
  | ok vals =>
    rw [hv, exceptBind_ok] at h
    dsimp only at h
    cases hp : parseOperator env (eq.variableIds.zip (initAdArrays vals))
        eq.operator eq.storedMatrices with
    | error e => rw [hp, exceptBind_error] at h; cases h
    | ok rc =>
      obtain ⟨res, c'⟩ := rc
      rw [hp, exceptBind_ok] at h
      dsimp only at h
      cases h
      dsimp only
      rw [hv, exceptBind_ok]
      rw [parseOp_stable env _ eq.operator eq.storedMatrices pv c' hp c'
        (cacheLe_refl c'), exceptBind_ok]

theorem assembleLoop_repeat (env : Env) (n : Nat) (state : List ℚ) :
    ∀ (eqs : List Equation) (mats : List Mat) (bs : List (List ℚ))
      (eqs' : List Equation),
      assembleLoop env n state eqs = .ok (mats, bs, eqs') →
      assembleLoop env n state eqs' = .ok (mats, bs, eqs') := by
  intro eqs
  induction eqs with
  | nil =>
    intro mats bs eqs' h
    rw [assembleLoop] at h
    cases h
    rfl
  | cons eq rest ih =>
    intro mats bs eqs' h
    rw [assembleLoop] at h
    cases ht : eq.toAd env state with
    | error e => rw [ht, exceptBind_error] at h; cases h
    | ok pc =>
      obtain ⟨pv, eq1⟩ := pc
      rw [ht, exceptBind_ok] at h
      dsimp only at h
      cases hl : eq1.localDofs with
      | none => rw [hl] at h; cases h
      | some idx =>
        rw [hl] at h
        dsimp only at h
        cases hs : scatterMatrix idx n with
        | error e => rw [hs, exceptBind_error] at h; cases h
        | ok proj =>
          rw [hs, exceptBind_ok] at h
          cases pv with
          | adv val jac =>
            dsimp only at h
            cases hr : assembleLoop env n state rest with
            | error e => rw [hr, exceptBind_error] at h; cases h
            | ok triple =>
              obtain ⟨mats0, bs0, eqs0⟩ := triple
              rw [hr, exceptBind_ok] at h
              cases h
              rw [assembleLoop, toAd_repeat eq env state _ eq1 ht, exceptBind_ok]
              try dsimp only
              rw [hl]
              try dsimp only
              rw [hs, exceptBind_ok]
              try dsimp only
              rw [ih mats0 bs0 eqs0 hr, exceptBind_ok]
          | scalar x => cases h
          | arr v => cases h
          | mat m => cases h
          | func fid => cases h

/-- Claim C6: assembling twice from the same unchanged state and stores
yields bit-identical results — the second `assemble_matrix_rhs` call, on the
equations whose caches the first call populated, returns the same `A` and
`rhs` (and leaves the equations unchanged). -/
theorem C6_assemble_idempotent (em : EquationManager) (env : Env)
    (state : List ℚ) (A : Mat) (rhs : List ℚ) (eqs' : List Equation)
    (h : em.assembleMatrixRhs env state = .ok (A, rhs, eqs')) :
    EquationManager.assembleMatrixRhs { em with equations := eqs' } env state
      = .ok (A, rhs, eqs') := by
  unfold EquationManager.assembleMatrixRhs at h ⊢
  dsimp only
  cases hloop : assembleLoop env em.dofManager.fullDof.sum state em.equations with
  | error e => rw [hloop, exceptBind_error] at h; cases h
  | ok triple =>
    obtain ⟨mats0, bs0, eqs0⟩ := triple
    rw [hloop, exceptBind_ok] at h
    dsimp only at h
    have hrep := assembleLoop_repeat env _ state em.equations mats0 bs0 eqs0 hloop
    cases hv : vstack mats0 with
    | error e => rw [hv, exceptBind_error] at h; cases h
    | ok A0 =>
      rw [hv, exceptBind_ok] at h
      cases hq : hstackQ bs0 with
      | error e => rw [hq, exceptBind_error] at h; cases h
      | ok r0 =>
        rw [hq, exceptBind_ok] at h
        cases h
        rw [hrep, exceptBind_ok]
        rw [hv, exceptBind_ok]
        dsimp only
        rw [hq, exceptBind_ok]

section RatEvalC

attribute [local semireducible] Rat.mul Rat.add Rat.sub Rat.inv

/-- Witness for C6: the second assembly of `M * p` returns the identical
`(A, rhs)` and equation list as the first. -/
theorem C6_assemble_idempotent_witness :
    emA.assembleMatrixRhs envA stateA
      = .ok ([[2, 0, 0, 0, 0, 0, 0, 0, 0, 0, 0, 0],
              [0, 3, 0, 0, 0, 0, 0, 0, 0, 0, 0, 0]], [-20, -60], [eqA']) ∧
    EquationManager.assembleMatrixRhs { emA with equations := [eqA'] } envA stateA
      = .ok ([[2, 0, 0, 0, 0, 0, 0, 0, 0, 0, 0, 0],
              [0, 3, 0, 0, 0, 0, 0, 0, 0, 0, 0, 0]], [-20, -60], [eqA']) :=
  ⟨by decide, C6_assemble_idempotent emA envA stateA _ _ [eqA'] (by decide)⟩

end RatEvalC

end PorePy
